import Mathlib

/-!
Verification of the Word-Metrics transformer (src/streamlit_app.py).

The program ingests a tabular dataset, and in "Statement-level" mode emits
one record per row with word counts and per-classifier percentages, or in
"ID-level" mode groups rows by an identity column (pandas groupby) and
emits aggregate records; in statement mode with engagement columns it also
emits a per-classifier "Tactic Impact Summary".

Modelling conventions:
- Python floats are modelled as `Option ℚ` where `none` stands for NaN
  (the only operations performed on them here are exact arithmetic on
  small decimals and comparisons with 0, so rationals are faithful).
- A pandas cell is a `Value`: a number, a string, NaN (missing), None, or
  a genuine Python list.
- `ast.literal_eval` is modelled by `literalEval`, a safe literal parser
  for the fragment the data uses: quoted strings with escapes, integers,
  booleans, None, and (nested) lists with optional trailing comma.
  Python float literals, tuples, dicts, sets, byte strings and exotic
  numeral forms are outside the model.
- Fallible Python code (float(...) raising ValueError/TypeError) is
  modelled with `Except String`.
-/

namespace WordMetrics

/-- A parsed Python literal value, as returned by `ast.literal_eval` on the
fragment of literals this program's data uses. -/
inductive PyVal where
  | PStr (s : String)
  | PInt (n : Int)
  | PBool (b : Bool)
  | PNone
  | PList (l : List PyVal)

open PyVal

mutual

def PyVal.decEq : (a b : PyVal) → Decidable (a = b)
  | PStr s, PStr t =>
    if h : s = t then isTrue (h ▸ rfl) else isFalse (fun he => h (PyVal.PStr.inj he))
  | PInt n, PInt m =>
    if h : n = m then isTrue (h ▸ rfl) else isFalse (fun he => h (PyVal.PInt.inj he))
  | PBool a, PBool b =>
    if h : a = b then isTrue (h ▸ rfl) else isFalse (fun he => h (PyVal.PBool.inj he))
  | PNone, PNone => isTrue rfl
  | PList l, PList m =>
    match PyVal.decEqList l m with
    | isTrue h => isTrue (h ▸ rfl)
    | isFalse h => isFalse (fun he => h (PyVal.PList.inj he))
  | PStr _, PInt _ => isFalse nofun
  | PStr _, PBool _ => isFalse nofun
  | PStr _, PNone => isFalse nofun
  | PStr _, PList _ => isFalse nofun
  | PInt _, PStr _ => isFalse nofun
  | PInt _, PBool _ => isFalse nofun
  | PInt _, PNone => isFalse nofun
  | PInt _, PList _ => isFalse nofun
  | PBool _, PStr _ => isFalse nofun
  | PBool _, PInt _ => isFalse nofun
  | PBool _, PNone => isFalse nofun
  | PBool _, PList _ => isFalse nofun
  | PNone, PStr _ => isFalse nofun
  | PNone, PInt _ => isFalse nofun
  | PNone, PBool _ => isFalse nofun
  | PNone, PList _ => isFalse nofun
  | PList _, PStr _ => isFalse nofun
  | PList _, PInt _ => isFalse nofun
  | PList _, PBool _ => isFalse nofun
  | PList _, PNone => isFalse nofun

def PyVal.decEqList : (a b : List PyVal) → Decidable (a = b)
  | [], [] => isTrue rfl
  | [], _ :: _ => isFalse nofun
  | _ :: _, [] => isFalse nofun
  | x :: xs, y :: ys =>
    match PyVal.decEq x y, PyVal.decEqList xs ys with
    | isTrue h1, isTrue h2 => isTrue (h1 ▸ h2 ▸ rfl)
    | isFalse h1, _ => isFalse (fun he => h1 (List.cons.injEq .. ▸ he).1)
    | _, isFalse h2 => isFalse (fun he => h2 (List.cons.injEq .. ▸ he).2)

end

instance : DecidableEq PyVal := PyVal.decEq

instance : DecidableEq (List PyVal) := PyVal.decEqList

/-- A pandas cell value: number, string, NaN (missing), None, or a genuine
list (the "already a list" case of the found-terms field). -/
inductive Value where
  | VNum (q : ℚ)
  | VStr (s : String)
  | VNaN
  | VNone
  | VList (l : List PyVal)
deriving DecidableEq

open Value

/-- NaN and None are the values pandas treats as missing (dropped by
`groupby`, skipped by `sum`/`mean`/`first`). -/
def isMissing : Value → Bool
  | VNaN => true
  | VNone => true
  | _ => false

/-! ## The safe literal parser (model of `ast.literal_eval`) -/

/-- The whitespace characters the parser skips (Python allows whitespace
around tokens inside a literal expression). -/
def isWsChar (c : Char) : Bool :=
  c = ' ' || c = '\t' || c = '\n' || c = '\r'

/-- Drop leading whitespace. -/
def ws : List Char → List Char
  | [] => []
  | c :: cs => if isWsChar c then ws cs else c :: cs

/-- Decode one escape sequence `\c` inside a string literal.  The escapes
Python's repr emits are decoded; an unrecognized escape keeps the backslash
and the character (as CPython does, modulo a warning). -/
def unescChar (c : Char) : List Char :=
  if c = '\\' then ['\\']
  else if c = '\'' then ['\'']
  else if c = '"' then ['"']
  else if c = 'n' then ['\n']
  else if c = 't' then ['\t']
  else if c = 'r' then ['\r']
  else ['\\', c]

/-- Scan the body of a string literal up to the closing quote `q`,
decoding escapes; returns the decoded body and the remaining input. -/
def strBody (q : Char) : List Char → Option (List Char × List Char)
  | [] => none
  | c :: cs =>
    if c = '\\' then
      match cs with
      | [] => none
      | e :: cs' => (strBody q cs').map (fun p => (unescChar e ++ p.1, p.2))
    else if c = q then some ([], cs)
    else (strBody q cs).map (fun p => (c :: p.1, p.2))

/-- Consume a maximal run of decimal digits, most significant first,
accumulating their value. -/
def takeDigits : Nat → List Char → Nat × List Char
  | acc, [] => (acc, [])
  | acc, c :: cs =>
    if c.isDigit then takeDigits (acc * 10 + (c.toNat - 48)) cs else (acc, c :: cs)

mutual

/-- Parse one literal value (string, integer, boolean, None or list).
`fuel` bounds the nesting recursion; `literalEval` supplies enough. -/
def parseVal : Nat → List Char → Option (PyVal × List Char)
  | 0, _ => none
  | fuel + 1, cs =>
    match ws cs with
    | [] => none
    | c :: cs' =>
      if c.isDigit then
        let p := takeDigits (c.toNat - 48) cs'
        some (PInt (p.1 : Int), p.2)
      else if c = '\'' || c = '"' then
        (strBody c cs').map (fun p => (PStr (String.mk p.1), p.2))
      else if c = '[' then
        match ws cs' with
        | [] => none
        | c2 :: cs2 =>
          if c2 = ']' then some (PList [], cs2)
          else (parseItems fuel (c2 :: cs2)).map (fun p => (PList p.1, p.2))
      else if c = '-' then
        match cs' with
        | d :: cs'' =>
          if d.isDigit then
            let p := takeDigits (d.toNat - 48) cs''
            some (PInt (-(p.1 : Int)), p.2)
          else none
        | [] => none
      else
        match c :: cs' with
        | 'T' :: 'r' :: 'u' :: 'e' :: r => some (PBool true, r)
        | 'F' :: 'a' :: 'l' :: 's' :: 'e' :: r => some (PBool false, r)
        | 'N' :: 'o' :: 'n' :: 'e' :: r => some (PNone, r)
        | _ => none

/-- Parse the comma-separated elements of a non-empty list literal, up to
and including the closing bracket; a trailing comma is allowed, as in
Python. -/
def parseItems : Nat → List Char → Option (List PyVal × List Char)
  | 0, _ => none
  | fuel + 1, cs =>
    match parseVal fuel cs with
    | none => none
    | some (v, r) =>
      match ws r with
      | ']' :: r2 => some ([v], r2)
      | ',' :: r2 =>
        (match ws r2 with
         | [] => none
         | c3 :: r3 =>
           if c3 = ']' then some ([v], r3)
           else (parseItems fuel (c3 :: r3)).map (fun p => (v :: p.1, p.2)))
      | _ => none

end

/-- Model of `ast.literal_eval`: parse the whole string as a single
literal; any leftover non-whitespace input is an error (`none`). -/
def literalEval (s : String) : Option PyVal :=
  match parseVal (s.data.length + 1) s.data with
  | some (v, rest) => if ws rest = [] then some v else none
  | none => none

/-- Found-terms normalization, the shared logic of
src/streamlit_app.py lines 59-66 (statement branch) and lines 99-108
(ID-level branch): a string cell is parsed with `ast.literal_eval` and
kept only if the parse succeeds and yields a list; a genuine list cell is
used as-is; anything else becomes the empty list. -/
def normalize (v : Value) : List PyVal :=
  match v with
  | VStr s =>
    match literalEval s with
    | some (PList l) => l
    | _ => []
  | VList l => l
  | _ => []

/-! ## Python `repr` of literal values (the "literal printed representation") -/

/-- Digits of a natural number, most significant first. -/
def natDigits (n : Nat) : List Char :=
  if h : n < 10 then [Char.ofNat (48 + n)]
  else natDigits (n / 10) ++ [Char.ofNat (48 + n % 10)]
termination_by n
decreasing_by exact Nat.div_lt_self (by omega) (by omega)

/-- Characters of the decimal representation of an integer. -/
def intChars (n : Int) : List Char :=
  if n < 0 then '-' :: natDigits (-n).toNat else natDigits n.toNat

/-- Python's repr quote choice for a string: single quotes, unless the
string contains a single quote and no double quote. -/
def quoteFor (cs : List Char) : Char :=
  if cs.contains '\'' && !(cs.contains '"') then '"' else '\''

/-- Escape one character of a string body under the chosen quote `q`
(the escapes repr emits on the modelled fragment: backslash, the quote
character itself, and the common control characters). -/
def escChar (q c : Char) : List Char :=
  if c = '\\' || c = q then ['\\', c]
  else if c = '\n' then ['\\', 'n']
  else if c = '\t' then ['\\', 't']
  else if c = '\r' then ['\\', 'r']
  else [c]

/-- Escape a whole string body. -/
def escBody (q : Char) : List Char → List Char
  | [] => []
  | c :: cs => escChar q c ++ escBody q cs

mutual

/-- Characters of the Python `repr` of a literal value. -/
def reprV : PyVal → List Char
  | PStr s =>
    let q := quoteFor s.data
    q :: (escBody q s.data ++ [q])
  | PInt n => intChars n
  | PBool true => ['T', 'r', 'u', 'e']
  | PBool false => ['F', 'a', 'l', 's', 'e']
  | PNone => ['N', 'o', 'n', 'e']
  | PList l =>
    match l with
    | [] => ['[', ']']
    | v :: vs => '[' :: (reprItems v vs ++ [']'])
termination_by v => sizeOf v
decreasing_by all_goals (simp_wf; try omega)

/-- Elements of a non-empty list, separated by ", " as repr prints them. -/
def reprItems : PyVal → List PyVal → List Char
  | v, [] => reprV v
  | v, w :: vs => reprV v ++ ',' :: ' ' :: reprItems w vs
termination_by v vs => sizeOf v + sizeOf vs
decreasing_by all_goals (simp_wf; try omega)

end

/-- The Python `repr` of a literal value, as a string. -/
def pyRepr (v : PyVal) : String := String.mk (reprV v)

/-! ## `str(...)` of a cell and word counting -/

/-- Count the maximal whitespace-separated tokens of a character list
(the state records whether we are inside a token). -/
def tokAux : List Char → Bool → Nat
  | [], _ => 0
  | c :: cs, inTok =>
    if isWsChar c then tokAux cs false
    else (if inTok then 0 else 1) + tokAux cs true

/-- `len(text.split())`: number of whitespace-delimited tokens; an empty
or all-whitespace string has 0 tokens. -/
def wordCount (s : String) : Nat := tokAux s.data false

/-- Model of Python `str(...)` on a cell value.  A missing cell (pandas
NaN) stringifies to the literal text "nan"; a numeric cell stringifies to
a whitespace-free numeral (only its token count — always 1 — is consumed
downstream, so the exact digits of non-integral rationals are
unimportant); a genuine list prints as its repr. -/
def pyStr : Value → String
  | VStr s => s
  | VNaN => "nan"
  | VNone => "None"
  | VNum q =>
    if q.den = 1 then String.mk (intChars q.num ++ ['.', '0'])
    else String.mk (intChars q.num ++ '/' :: natDigits q.den)
  | VList l => pyRepr (PList l)

/-! ## Companion column derivation and `float(...)` coercion -/

/-- Python `str.removeprefix`: drop `p` from the front of `s` when `s`
starts with it, otherwise return `s` unchanged. -/
def removePrefixStr (p s : String) : String :=
  if p.data.isPrefixOf s.data then String.mk (s.data.drop p.data.length) else s

/-- The companion found-terms column name used by both branches of
src/streamlit_app.py (lines 55-56 and 91-92): strip a literal `has_`
from the classifier column name and wrap it in `found_..._terms`. -/
def companionName (c : String) : String :=
  "found_" ++ removePrefixStr "has_" c ++ "_terms"

/-- Parse the decimal numeral forms Python's `float(...)` accepts on this
data: optional surrounding whitespace, an optional sign, and digits with
an optional fractional part (at least one digit overall).  Exotic forms
(exponents, inf/nan spellings, underscores) are outside the model. -/
def parseFloatStr (s : String) : Option ℚ :=
  let go := fun (neg : Bool) (ds : List Char) =>
    let ip := takeDigits 0 ds
    let intDigits := ds.length - ip.2.length
    match ip.2 with
    | '.' :: fs =>
      let fp := takeDigits 0 fs
      let fracDigits := fs.length - fp.2.length
      if intDigits + fracDigits = 0 then none
      else if ws fp.2 = [] then
        some ((if neg then (-1 : ℚ) else 1) *
          ((ip.1 : ℚ) + (fp.1 : ℚ) / (10 : ℚ) ^ fracDigits))
      else none
    | rest =>
      if intDigits = 0 then none
      else if ws rest = [] then
        some ((if neg then (-1 : ℚ) else 1) * (ip.1 : ℚ))
      else none
  match ws s.data with
  | '-' :: ds => go true ds
  | '+' :: ds => go false ds
  | ds => go false ds

/-- Model of Python `float(...)` on a cell: numbers pass through, NaN
stays NaN, numeric strings parse, anything else raises (ValueError /
TypeError), which the source never catches locally. -/
def coerceFloat : Value → Except String (Option ℚ)
  | VNum q => .ok (some q)
  | VNaN => .ok none
  | VNone => .error "float() argument must be a string or a real number, not NoneType"
  | VList _ => .error "float() argument must be a string or a real number, not list"
  | VStr s =>
    match parseFloatStr s with
    | some q => .ok (some q)
    | none => .error ("could not convert string to float: " ++ s)

/-- `x > 0` on a Python float that may be NaN: NaN compares false. -/
def gt0 : Option ℚ → Bool
  | some q => decide (0 < q)
  | none => false

instance {ε α : Type} [DecidableEq ε] [DecidableEq α] : DecidableEq (Except ε α) :=
  fun a b =>
    match a, b with
    | .error e, .error f =>
      if h : e = f then isTrue (h ▸ rfl) else isFalse (fun he => h (Except.error.inj he))
    | .ok x, .ok y =>
      if h : x = y then isTrue (h ▸ rfl) else isFalse (fun he => h (Except.ok.inj he))
    | .error _, .ok _ => isFalse nofun
    | .ok _, .error _ => isFalse nofun

/-! ## Rounding and truncation (Python `round` and `int`)

Python's `round` rounds half to even; `int(...)` on a float truncates
toward zero. -/

/-- Round half to even, to an integer. -/
def rndHalfEven (q : ℚ) : ℤ :=
  let f := ⌊q⌋
  let r := q - (f : ℚ)
  if r < 1/2 then f
  else if 1/2 < r then f + 1
  else if f % 2 = 0 then f else f + 1

/-- Python `round(x, k)` on the modelled rationals. -/
def pyRound (k : Nat) (q : ℚ) : ℚ :=
  ((rndHalfEven (q * (10 : ℚ) ^ k) : ℚ)) / (10 : ℚ) ^ k

/-- Python `int(...)`: truncation toward zero. -/
def pyTrunc (q : ℚ) : ℤ :=
  (Int.sign q.num) * ((q.num.natAbs / q.den : Nat) : Int)

/-! ## The dataset model -/

/-- A row is a mapping from column name to cell value, modelled as an
association list (every column of the table appears once per row; a blank
CSV field appears as `VNaN`, matching what pandas produces). -/
def Row : Type := List (String × Value)

instance : DecidableEq Row :=
  inferInstanceAs (DecidableEq (List (String × Value)))

/-- Cell access with a default, modelling both `row[col]` /
`positive_rows[col]` (where an absent value is NaN) and
`row.get(col, d)` (where the code supplies the default `d`). -/
def rowGet (r : Row) (c : String) (d : Value) : Value :=
  (List.lookup c r).getD d

/-- A dataset: the table's column names plus its rows in input order. -/
structure Dataset where
  cols : List String
  rows : List Row
deriving DecidableEq

/-- The caller's column selections (id column, text column, ordered
classifier columns), as picked in the UI. -/
structure Config where
  idCol : String
  textCol : String
  clsCols : List String
deriving DecidableEq

/-! ## Group keys and their ordering

`df.groupby(col)` (with default options, as in the source) drops rows
whose key is missing, and iterates groups with their keys sorted
ascending.  We model the key order: numbers by numeric value, strings
lexicographically by character code.  (pandas raises on cross-typed or
unhashable keys; the model extends the order totally — by a type rank,
and comparing list keys via their printed form — which is only exercised
on inputs the real program would reject.) -/

/-- Lexicographic comparison of character lists by character code. -/
def lexLE : List Char → List Char → Bool
  | [], _ => true
  | _ :: _, [] => false
  | a :: as, b :: bs =>
    if a.toNat < b.toNat then true
    else if b.toNat < a.toNat then false
    else lexLE as bs

/-- Type rank used to totalize the key order across cell types. -/
def rankV : Value → Nat
  | VNum _ => 0
  | VStr _ => 1
  | VList _ => 2
  | VNone => 3
  | VNaN => 4

/-- The total order on group keys. -/
def keyLE (a b : Value) : Bool :=
  match a, b with
  | VNum p, VNum q => decide (p ≤ q)
  | VStr s, VStr t => lexLE s.data t.data
  | VList l, VList m => lexLE (reprV (PList l)) (reprV (PList m))
  | _, _ => decide (rankV a ≤ rankV b)

/-- `keyLE` as a decidable relation, for `List.insertionSort`. -/
def keyR (a b : Value) : Prop := keyLE a b = true

instance : DecidableRel keyR := fun a b =>
  inferInstanceAs (Decidable (keyLE a b = true))

/-- The distinct non-missing values of column `c`, sorted ascending —
the keys `df.groupby(c)` iterates, in their iteration order. -/
def keysOf (d : Dataset) (c : String) : List Value :=
  List.insertionSort keyR
    (((d.rows.map (fun r => rowGet r c VNaN)).filter (fun v => !isMissing v)).dedup)

/-- Model of `df.groupby(c)`: each key paired with the rows holding it,
in input order. -/
def groupby (d : Dataset) (c : String) : List (Value × List Row) :=
  (keysOf d c).map
    (fun k => (k, d.rows.filter (fun r => decide (rowGet r c VNaN = k))))

/-! ## The pipelines -/

/-- Sequence a fallible map over a list, stopping at the first error —
the behavior of a Python loop containing an unguarded fallible call. -/
def mapME {α β : Type} (f : α → Except String β) : List α → Except String (List β)
  | [] => .ok []
  | x :: xs => do
    let y ← f x
    let ys ← mapME f xs
    .ok (y :: ys)

/-- The numeric reading of a cell (`none` for anything pandas would
treat as null; engagement columns are modelled as numeric-or-missing). -/
def numVal : Value → Option ℚ
  | VNum q => some q
  | _ => none

/-- pandas `Series.sum()` on a numeric column: NaN skipped, empty sum 0. -/
def numSum (l : List Value) : ℚ := (l.filterMap numVal).sum

/-- The per-classifier part of a statement record: the coerced classifier
value and the `..._percentage` field. -/
structure ClsOut where
  value : Option ℚ
  pct : ℚ
deriving DecidableEq

/-- A statement-level output record (source lines 39-49 plus the
per-classifier fields of lines 51-70). -/
structure SRecord where
  row_id : Nat
  id : Value
  statement : String
  word_count : Nat
  number_likes : Option Value
  number_comments : Option Value
  cls : List (String × ClsOut)
deriving DecidableEq

/-- The per-classifier fields of one statement record (source lines
51-70): coerce the cell with `float` (fallible, uncaught), normalize the
companion found-terms cell, and derive the percentage with the
division-by-zero guard of line 69. -/
def clsOutFor (r : Row) (wc : Nat) (c : String) : Except String (String × ClsOut) := do
  let v ← coerceFloat (rowGet r c (VNum 0))
  let ft := rowGet r (companionName c) (VList [])
  let terms := normalize ft
  let percentage : ℚ := if 0 < wc then (terms.length : ℚ) / (wc : ℚ) else 0
  .ok (c, ClsOut.mk v (percentage * 100))

/-- Build one statement record from row `r` at 0-based position `idx`
(the body of the `for idx, row in df.iterrows()` loop, lines 35-72).
The `float` coercion of a classifier cell (line 52) is the only fallible
step; nothing in the loop catches it. -/
def buildSRecord (d : Dataset) (cfg : Config) (idx : Nat) (r : Row) :
    Except String SRecord := do
  let stext := pyStr (rowGet r cfg.textCol VNaN)
  let wc := wordCount stext
  let likes := if d.cols.contains "number_likes"
    then some (rowGet r "number_likes" (VNum 0)) else none
  let comments := if d.cols.contains "number_comments"
    then some (rowGet r "number_comments" (VNum 0)) else none
  let cls ← mapME (clsOutFor r wc) cfg.clsCols
  .ok { row_id := idx + 1, id := rowGet r cfg.idCol VNaN, statement := stext,
        word_count := wc, number_likes := likes, number_comments := comments,
        cls := cls }

/-- The Statement-level branch (source lines 34-72): one record per input
row, in input order; an uncaught per-row error aborts the whole transform
(it propagates to the top-level handler at lines 169-170). -/
def statementLevel (cfg : Config) (d : Dataset) : Except String (List SRecord) :=
  mapME (fun p => buildSRecord d cfg p.1 p.2) d.rows.enum

/-- The per-classifier part of an ID-level aggregate record. -/
structure IdCls where
  word_count : Nat
  pct : ℚ
  score : ℚ
  likes : Option ℚ
  comments : Option ℚ
deriving DecidableEq

/-- An ID-level aggregate record (source lines 79-123). -/
structure ARecord where
  id : Value
  total_word_count : Nat
  total_likes : Option ℚ
  total_comments : Option ℚ
  cls : List (String × IdCls)
deriving DecidableEq

/-- The per-classifier fields of one ID-level aggregate record (source
lines 89-123): coerce the whole group column with `astype(float)`
(fallible, uncaught), count found terms over the positive rows when the
companion column exists, and derive the positive-ratio statistics. -/
def idClsFor (d : Dataset) (g : List Row) (c : String) :
    Except String (String × IdCls) := do
  let values ← mapME (fun r => coerceFloat (rowGet r c VNaN)) g
  let compN := companionName c
  let wcnt := if d.cols.contains compN then
      (((g.zip values).filter (fun p => gt0 p.2)).map
        (fun p => (normalize (rowGet p.1 compN VNaN)).length)).sum
    else 0
  let ratioQ : ℚ := ((values.filter gt0).length : ℚ) / (values.length : ℚ)
  let clsLikes := if d.cols.contains "number_likes" then
      some (numSum (((g.zip values).filter (fun p => gt0 p.2)).map
        (fun p => rowGet p.1 "number_likes" VNaN)))
    else none
  let clsComments := if d.cols.contains "number_comments" then
      some (numSum (((g.zip values).filter (fun p => gt0 p.2)).map
        (fun p => rowGet p.1 "number_comments" VNaN)))
    else none
  .ok (c, IdCls.mk wcnt (ratioQ * 100) (pyRound 3 ratioQ) clsLikes clsComments)

/-- Build the aggregate record of one group (the body of the
`for uid, group in grouped:` loop, lines 76-125).  `positive_ratio`
divides by the group size, which is nonzero for every group `groupby`
emits (ℚ division by zero would yield 0 but is never reached from
`idLevel`). -/
def buildARecord (d : Dataset) (cfg : Config) (uid : Value) (g : List Row) :
    Except String ARecord := do
  let statements := g.map (fun r => pyStr (rowGet r cfg.textCol VNaN))
  let tw := (statements.map wordCount).sum
  let tl := if d.cols.contains "number_likes"
    then some (numSum (g.map (fun r => rowGet r "number_likes" VNaN))) else none
  let tc := if d.cols.contains "number_comments"
    then some (numSum (g.map (fun r => rowGet r "number_comments" VNaN))) else none
  let cls ← mapME (idClsFor d g) cfg.clsCols
  .ok { id := uid, total_word_count := tw, total_likes := tl,
        total_comments := tc, cls := cls }

/-- The ID-level aggregation branch (source lines 74-125). -/
def idLevel (cfg : Config) (d : Dataset) : Except String (List ARecord) :=
  mapME (fun p => buildARecord d cfg p.1 p.2) (groupby d cfg.idCol)

/-! ## The Tactic Impact Summary (source lines 131-153) -/

/-- `result_df[col] > 0` on one statement record. -/
def recPositive (c : String) (rec : SRecord) : Bool :=
  match List.lookup c rec.cls with
  | some o => gt0 o.value
  | none => false

/-- The numeric likes of a record (NaN/absent → none). -/
def likesNum (rec : SRecord) : Option ℚ :=
  (rec.number_likes).bind numVal

/-- The numeric comments of a record (NaN/absent → none). -/
def commentsNum (rec : SRecord) : Option ℚ :=
  (rec.number_comments).bind numVal

/-- The keys of `pos_rows.groupby("id")`: distinct non-missing ids,
sorted. -/
def recKeys (pos : List SRecord) : List Value :=
  List.insertionSort keyR
    (((pos.map (fun rec => rec.id)).filter (fun v => !isMissing v)).dedup)

/-- `grouped[...].first()` for one group: the first non-null value of the
field in the group, in record order. -/
def firstNumOf (f : SRecord → Option ℚ) (pos : List SRecord) (k : Value) :
    Option ℚ :=
  ((pos.filter (fun rec => decide (rec.id = k))).filterMap f).head?

/-- One row of the Tactic Impact Summary. -/
structure TacStat where
  tactic : String
  positive_statements : Nat
  unique_posts : Nat
  total_likes : ℤ
  avg_likes : ℚ
  total_comments : ℤ
  avg_comments : ℚ
deriving DecidableEq

/-- The summary row for one classifier column (body of the loop at
source lines 133-153): positive records are grouped by id, each group
contributes its first non-null likes/comments value once; the mean is 0
when there are no contributing groups (the NaN guard at lines 150/152). -/
def tacticSummaryFor (recs : List SRecord) (c : String) : TacStat :=
  let pos := recs.filter (recPositive c)
  let ks := recKeys pos
  let lvals := ks.filterMap (firstNumOf likesNum pos)
  let cvals := ks.filterMap (firstNumOf commentsNum pos)
  { tactic := c
    positive_statements := pos.length
    unique_posts := ks.length
    total_likes := pyTrunc lvals.sum
    avg_likes := if lvals.length = 0 then 0
      else pyRound 2 (lvals.sum / (lvals.length : ℚ))
    total_comments := pyTrunc cvals.sum
    avg_comments := if cvals.length = 0 then 0
      else pyRound 2 (cvals.sum / (cvals.length : ℚ)) }

/-- The whole summary table, produced only in statement mode when both
`number_likes` and `number_comments` exist (line 131). -/
def tacticSummary (cfg : Config) (recs : List SRecord) : List TacStat :=
  cfg.clsCols.map (tacticSummaryFor recs)

/-! ## The two companion-column derivation variants (spec §4.1) -/

/-- The two companion-column naming conventions the repository's entry
points use. -/
inductive NameVariant where
  | stripHas
  | verbatim
deriving DecidableEq

/-- Companion column derivation under a chosen naming variant.
`stripHas` is the rule of src/streamlit_app.py (lines 55-56, 91-92).
Modelled from the spec: the `verbatim` variant is the rule of the
repository's other entry point, which is not included under src/ — per
spec §4.1 it uses the full classifier column name unmodified, forming
`found_{col}_terms`. -/
def companionFor : NameVariant → String → String
  | .stripHas, c => companionName c
  | .verbatim, c => "found_" ++ c ++ "_terms"

/-! ## Lemmas about `mapME` -/

theorem mapME_ok_of_forall {α β : Type} {f : α → Except String β} :
    ∀ {l : List α}, (∀ x ∈ l, (f x).isOk = true) → (mapME f l).isOk = true := by
  intro l
  induction l with
  | nil => intro _; rfl
  | cons x xs ih =>
    intro h
    have hx := h x (by simp)
    have hxs := ih (fun y hy => h y (by simp [hy]))
    cases hfx : f x with
    | error e => rw [hfx] at hx; simp [Except.isOk, Except.toBool] at hx
    | ok y =>
      cases hm : mapME f xs with
      | error e => rw [hm] at hxs; simp [Except.isOk, Except.toBool] at hxs
      | ok ys =>
        simp [mapME, hfx, hm, Except.isOk, Except.toBool, Bind.bind, Except.bind]

theorem mapME_ok_mem {α β : Type} {f : α → Except String β} :
    ∀ {l : List α} {ys : List β}, mapME f l = .ok ys →
      ∀ y ∈ ys, ∃ x ∈ l, f x = .ok y := by
  intro l
  induction l with
  | nil =>
    intro ys h y hy
    simp [mapME] at h
    subst h
    simp at hy
  | cons x xs ih =>
    intro ys h y hy
    cases hfx : f x with
    | error e => simp [mapME, hfx, Bind.bind, Except.bind] at h
    | ok z =>
      cases hm : mapME f xs with
      | error e => simp [mapME, hfx, hm, Bind.bind, Except.bind] at h
      | ok zs =>
        simp [mapME, hfx, hm, Bind.bind, Except.bind] at h
        subst h
        rcases List.mem_cons.1 hy with h1 | h2
        · exact ⟨x, by simp, h1 ▸ hfx⟩
        · obtain ⟨w, hw, hfw⟩ := ih hm y h2
          exact ⟨w, by simp [hw], hfw⟩

theorem mapME_ok_map {α β γ : Type} {f : α → Except String β} {g : β → γ}
    {g' : α → γ} :
    ∀ {l : List α} {ys : List β}, mapME f l = .ok ys →
      (∀ x y, f x = .ok y → g y = g' x) → ys.map g = l.map g' := by
  intro l
  induction l with
  | nil => intro ys h _; simp [mapME] at h; subst h; simp
  | cons x xs ih =>
    intro ys h hg
    cases hfx : f x with
    | error e => simp [mapME, hfx, Bind.bind, Except.bind] at h
    | ok z =>
      cases hm : mapME f xs with
      | error e => simp [mapME, hfx, hm, Bind.bind, Except.bind] at h
      | ok zs =>
        simp [mapME, hfx, hm, Bind.bind, Except.bind] at h
        subst h
        simp [List.map, hg x z hfx, ih hm hg]

theorem mapME_ok_get {α β : Type} {f : α → Except String β} :
    ∀ {l : List α} {ys : List β}, mapME f l = .ok ys →
      ys.length = l.length ∧
      ∀ i, ∀ h1 : i < ys.length, ∀ h2 : i < l.length,
        f (l.get ⟨i, h2⟩) = .ok (ys.get ⟨i, h1⟩) := by
  intro l
  induction l with
  | nil =>
    intro ys h
    simp [mapME] at h
    subst h
    exact ⟨rfl, fun i h1 h2 => absurd h1 (by simp)⟩
  | cons x xs ih =>
    intro ys h
    cases hfx : f x with
    | error e => simp [mapME, hfx, Bind.bind, Except.bind] at h
    | ok z =>
      cases hm : mapME f xs with
      | error e => simp [mapME, hfx, hm, Bind.bind, Except.bind] at h
      | ok zs =>
        simp [mapME, hfx, hm, Bind.bind, Except.bind] at h
        subst h
        obtain ⟨hlen, hget⟩ := ih hm
        refine ⟨by simp [hlen], ?_⟩
        intro i h1 h2
        cases i with
        | zero => simpa using hfx
        | succ j =>
          have h1' : j < zs.length := by simp at h1; omega
          have h2' : j < xs.length := by simp at h2; omega
          simpa using hget j h1' h2'

/-! ## The key order is total and transitive -/

theorem lexLE_total : ∀ as bs : List Char, lexLE as bs = true ∨ lexLE bs as = true := by
  intro as
  induction as with
  | nil => intro bs; left; rfl
  | cons a as ih =>
    intro bs
    cases bs with
    | nil => right; rfl
    | cons b bs =>
      rcases Nat.lt_trichotomy a.toNat b.toNat with h | h | h
      · left; simp [lexLE, h]
      · rcases ih bs with h2 | h2
        · left; simp [lexLE, h, h2]
        · right; simp [lexLE, h.symm, h2]
      · right; simp [lexLE, h]

theorem lexLE_trans : ∀ as bs cs : List Char,
    lexLE as bs = true → lexLE bs cs = true → lexLE as cs = true := by
  intro as
  induction as with
  | nil => intro bs cs _ _; rfl
  | cons a as ih =>
    intro bs cs hab hbc
    cases bs with
    | nil => simp [lexLE] at hab
    | cons b bs =>
      cases cs with
      | nil => simp [lexLE] at hbc
      | cons c cs =>
        rcases Nat.lt_trichotomy a.toNat b.toNat with h1 | h1 | h1
        · rcases Nat.lt_trichotomy b.toNat c.toNat with h2 | h2 | h2
          · simp [lexLE, show a.toNat < c.toNat by omega]
          · simp [lexLE, show a.toNat < c.toNat by omega]
          · simp [lexLE, show ¬b.toNat < c.toNat by omega, h2] at hbc
        · rcases Nat.lt_trichotomy b.toNat c.toNat with h2 | h2 | h2
          · simp [lexLE, show a.toNat < c.toNat by omega]
          · simp only [lexLE, if_neg (show ¬a.toNat < b.toNat by omega),
              if_neg (show ¬b.toNat < a.toNat by omega)] at hab
            simp only [lexLE, if_neg (show ¬b.toNat < c.toNat by omega),
              if_neg (show ¬c.toNat < b.toNat by omega)] at hbc
            simp only [lexLE, if_neg (show ¬a.toNat < c.toNat by omega),
              if_neg (show ¬c.toNat < a.toNat by omega)]
            exact ih bs cs hab hbc
          · simp [lexLE, show ¬b.toNat < c.toNat by omega, h2] at hbc
        · simp [lexLE, show ¬a.toNat < b.toNat by omega, h1] at hab

instance : IsTotal Value keyR := by
  constructor
  intro a b
  cases a <;> cases b <;> simp [keyR, keyLE, rankV]
  · exact le_total _ _
  · exact lexLE_total _ _
  · exact lexLE_total _ _

instance : IsTrans Value keyR := by
  constructor
  intro a b c hab hbc
  cases a <;> cases b <;> cases c <;>
    simp_all [keyR, keyLE, rankV]
  · exact le_trans hab hbc
  · exact lexLE_trans _ _ _ hab hbc
  · exact lexLE_trans _ _ _ hab hbc

/-! ## Lemmas about `groupby` -/

/-- The key of every cell of column `c`, over the rows. -/
def colVals (d : Dataset) (c : String) : List Value :=
  d.rows.map (fun r => rowGet r c VNaN)

theorem keysOf_perm (d : Dataset) (c : String) :
    List.Perm (keysOf d c) (((colVals d c).filter (fun v => !isMissing v)).dedup) :=
  List.perm_insertionSort _ _

theorem keysOf_nodup (d : Dataset) (c : String) : (keysOf d c).Nodup :=
  ((keysOf_perm d c).symm).nodup (List.nodup_dedup _)

theorem keysOf_sorted (d : Dataset) (c : String) :
    List.Sorted keyR (keysOf d c) :=
  List.sorted_insertionSort keyR _

theorem keysOf_mem (d : Dataset) (c : String) (k : Value) :
    k ∈ keysOf d c ↔ (isMissing k = false ∧ ∃ r ∈ d.rows, rowGet r c VNaN = k) := by
  rw [(keysOf_perm d c).mem_iff, List.mem_dedup, List.mem_filter]
  constructor
  · rintro ⟨hmem, hnm⟩
    rw [colVals, List.mem_map] at hmem
    obtain ⟨r, hr, hrk⟩ := hmem
    exact ⟨by simpa using hnm, r, hr, hrk⟩
  · rintro ⟨hnm, r, hr, hrk⟩
    refine ⟨?_, by simp [hnm]⟩
    rw [colVals, List.mem_map]
    exact ⟨r, hr, hrk⟩

/-- The size of the group of key `k` is the number of occurrences of `k`
in the column. -/
theorem group_size_eq_count (d : Dataset) (c : String) (k : Value) :
    (d.rows.filter (fun r => decide (rowGet r c VNaN = k))).length =
      (colVals d c).count k := by
  rw [List.count, colVals, List.countP_map, List.countP_eq_length_filter]
  rfl

/-- Occurrences of a non-missing key survive the missing-key filter. -/
theorem count_filter_nonmissing (k : Value) (hk : isMissing k = false)
    (l : List Value) :
    (l.filter (fun v => !isMissing v)).count k = l.count k :=
  List.count_filter (by simp [hk])

/-- The groups of `df.groupby(c)` partition the rows whose key is
non-missing: group sizes sum to the number of such rows. -/
theorem groupby_sizes_sum (d : Dataset) (c : String) :
    (((groupby d c).map (fun p => p.2.length)).sum) =
      (d.rows.filter (fun r => !isMissing (rowGet r c VNaN))).length := by
  have h1 : ((groupby d c).map (fun p => p.2.length)) =
      (keysOf d c).map (fun k => ((colVals d c).filter (fun v => !isMissing v)).count k) := by
    rw [groupby, List.map_map]
    refine List.map_congr_left (fun k hk => ?_)
    have hkm : isMissing k = false := ((keysOf_mem d c k).1 hk).1
    simp only [Function.comp]
    rw [group_size_eq_count, count_filter_nonmissing k hkm]
  rw [h1]
  have h2 := ((keysOf_perm d c).map
    (fun k => ((colVals d c).filter (fun v => !isMissing v)).count k)).sum_eq
  rw [h2]
  have h3 := List.sum_map_count_dedup_eq_length
    ((colVals d c).filter (fun v => !isMissing v))
  rw [h3]
  rw [colVals, List.filter_map, List.length_map]
  rfl

/-! ## Round trip: parsing the printed representation of a literal -/

/-- The input does not begin with a digit (so a numeral before it is
maximal). -/
def digitFree : List Char → Bool
  | [] => true
  | c :: _ => !c.isDigit

theorem ws_cons_not {c : Char} (h : isWsChar c = false) (cs : List Char) :
    ws (c :: cs) = c :: cs := by
  simp [ws, h]

theorem ws_cons_skip {c : Char} (h : isWsChar c = true) (cs : List Char) :
    ws (c :: cs) = ws cs := by
  simp [ws, h]

theorem quoteFor_cases (cs : List Char) :
    quoteFor cs = '\'' ∨ quoteFor cs = '"' := by
  unfold quoteFor
  split
  · right; rfl
  · left; rfl

/-- One-step unfolding of `strBody` on a cons cell. -/
theorem strBody_cons (q c : Char) (cs : List Char) : strBody q (c :: cs) =
    (if c = '\\' then
      (match cs with
       | [] => none
       | e :: cs' => (strBody q cs').map (fun p => (unescChar e ++ p.1, p.2)))
     else if c = q then some ([], cs)
     else (strBody q cs).map (fun p => (c :: p.1, p.2))) := by
  rw [strBody.eq_def]

theorem strBody_rt {q : Char} (hq : q = '\'' ∨ q = '"') :
    ∀ cs rest, strBody q (escBody q cs ++ (q :: rest)) = some (cs, rest) := by
  have hq' : (q = '\\') = False := by
    rcases hq with h | h <;> subst h <;> simp
  intro cs
  induction cs with
  | nil =>
    intro rest
    simp [escBody, strBody_cons, hq']
  | cons c cs ih =>
    intro rest
    show strBody q ((escChar q c ++ escBody q cs) ++ (q :: rest)) = _
    rw [List.append_assoc]
    by_cases h1 : (decide (c = '\\') || decide (c = q)) = true
    · have he : escChar q c = ['\\', c] := by simp [escChar, h1]
      rw [he]
      have hu : unescChar c = [c] := by
        rcases Bool.or_eq_true_iff.1 h1 with h | h
        · rw [of_decide_eq_true h]; rfl
        · rw [of_decide_eq_true h]
          rcases hq with h2 | h2 <;> subst h2 <;> rfl
      simp [strBody_cons, ih, hu]
    · have hc1 : ¬ c = '\\' := by intro h; exact h1 (by simp [h])
      have hc2 : ¬ c = q := by intro h; exact h1 (by simp [h])
      by_cases h3 : c = '\n'
      · subst h3
        have he : escChar q '\n' = ['\\', 'n'] := by simp [escChar, hc2]
        rw [he]
        simp [strBody_cons, ih, unescChar]
      · by_cases h4 : c = '\t'
        · subst h4
          have he : escChar q '\t' = ['\\', 't'] := by simp [escChar, hc2]
          rw [he]
          simp [strBody_cons, ih, unescChar]
        · by_cases h5 : c = '\r'
          · subst h5
            have he : escChar q '\r' = ['\\', 'r'] := by simp [escChar, hc2]
            rw [he]
            simp [strBody_cons, ih, unescChar]
          · have he : escChar q c = [c] := by
              simp [escChar, hc1, hc2, h3, h4, h5]
            rw [he]
            simp [strBody_cons, hc1, hc2, ih]

/-! ### Digits and numerals -/

theorem digitChar_facts (d : Nat) (hd : d < 10) :
    (Char.ofNat (48 + d)).isDigit = true ∧
    isWsChar (Char.ofNat (48 + d)) = false ∧
    (Char.ofNat (48 + d)).toNat - 48 = d ∧
    (Char.ofNat (48 + d) = ']') = False ∧
    (Char.ofNat (48 + d) = ',') = False := by
  interval_cases d <;> exact ⟨rfl, rfl, rfl, by simp, by simp⟩

theorem natDigits_head (n : Nat) :
    ∃ d ds, natDigits n = Char.ofNat (48 + d) :: ds ∧ d < 10 := by
  induction n using Nat.strong_induction_on with
  | _ n ih =>
    rw [natDigits]
    split
    · next h => exact ⟨n, [], rfl, h⟩
    · next h =>
      obtain ⟨d, ds, hd, hlt⟩ := ih (n / 10) (Nat.div_lt_self (by omega) (by decide))
      exact ⟨d, ds ++ [Char.ofNat (48 + n % 10)], by rw [hd]; rfl, hlt⟩

theorem takeDigits_cons_digit {c : Char} (h : c.isDigit = true) (a : Nat)
    (cs : List Char) :
    takeDigits a (c :: cs) = takeDigits (a * 10 + (c.toNat - 48)) cs := by
  simp [takeDigits, h]

theorem takeDigits_stop {cs : List Char} (h : digitFree cs = true) (a : Nat) :
    takeDigits a cs = (a, cs) := by
  cases cs with
  | nil => rfl
  | cons c cs =>
    have hc : c.isDigit = false := by
      simpa [digitFree] using h
    simp [takeDigits, hc]

theorem takeDigits_run : ∀ n : Nat, ∀ acc rest,
    takeDigits acc (natDigits n ++ rest) =
      takeDigits (acc * 10 ^ (natDigits n).length + n) rest := by
  intro n
  induction n using Nat.strong_induction_on with
  | _ n ih =>
    intro acc rest
    by_cases h : n < 10
    · obtain ⟨d, ds, hd, hlt⟩ := natDigits_head n
      have hone : natDigits n = [Char.ofNat (48 + n)] := by rw [natDigits]; simp [h]
      rw [hone]
      obtain ⟨hdig, _, htn, _, _⟩ := digitChar_facts n h
      rw [List.cons_append, takeDigits_cons_digit hdig, htn]
      simp
    · have hsplit : natDigits n =
          natDigits (n / 10) ++ [Char.ofNat (48 + n % 10)] := by
        rw [natDigits]; simp [h]
      rw [hsplit, List.append_assoc, List.cons_append, List.nil_append,
        ih (n / 10) (Nat.div_lt_self (by omega) (by decide))]
      obtain ⟨hdig, _, htn, _, _⟩ := digitChar_facts (n % 10) (Nat.mod_lt n (by decide))
      rw [takeDigits_cons_digit hdig, htn]
      have harith : (acc * 10 ^ (natDigits (n / 10)).length + n / 10) * 10 + n % 10 =
          acc * 10 ^ (natDigits (n / 10) ++ [Char.ofNat (48 + n % 10)]).length + n := by
        rw [List.length_append, List.length_cons, List.length_nil, pow_add, pow_one]
        have := Nat.div_add_mod n 10
        ring_nf
        omega
      rw [harith]

theorem takeDigits_full (n : Nat) {rest : List Char} (h : digitFree rest = true) :
    takeDigits 0 (natDigits n ++ rest) = (n, rest) := by
  rw [takeDigits_run, takeDigits_stop h]
  simp

theorem natDigits_ne_nil (n : Nat) : natDigits n ≠ [] := by
  obtain ⟨d, ds, hd, _⟩ := natDigits_head n
  simp [hd]

/-! ### One-step unfolding of the parser -/

theorem parseVal_succ (fuel : Nat) (cs : List Char) : parseVal (fuel + 1) cs =
    (match ws cs with
     | [] => none
     | c :: cs' =>
       if c.isDigit then
         let p := takeDigits (c.toNat - 48) cs'
         some (PInt (p.1 : Int), p.2)
       else if c = '\'' || c = '"' then
         (strBody c cs').map (fun p => (PStr (String.mk p.1), p.2))
       else if c = '[' then
         match ws cs' with
         | [] => none
         | c2 :: cs2 =>
           if c2 = ']' then some (PList [], cs2)
           else (parseItems fuel (c2 :: cs2)).map (fun p => (PList p.1, p.2))
       else if c = '-' then
         match cs' with
         | d :: cs'' =>
           if d.isDigit then
             let p := takeDigits (d.toNat - 48) cs''
             some (PInt (-(p.1 : Int)), p.2)
           else none
         | [] => none
       else
         match c :: cs' with
         | 'T' :: 'r' :: 'u' :: 'e' :: r => some (PBool true, r)
         | 'F' :: 'a' :: 'l' :: 's' :: 'e' :: r => some (PBool false, r)
         | 'N' :: 'o' :: 'n' :: 'e' :: r => some (PNone, r)
         | _ => none) := by
  rw [parseVal.eq_def]

theorem parseItems_succ (fuel : Nat) (cs : List Char) : parseItems (fuel + 1) cs =
    (match parseVal fuel cs with
     | none => none
     | some (v, r) =>
       match ws r with
       | ']' :: r2 => some ([v], r2)
       | ',' :: r2 =>
         (match ws r2 with
          | [] => none
          | c3 :: r3 =>
            if c3 = ']' then some ([v], r3)
            else (parseItems fuel (c3 :: r3)).map (fun p => (v :: p.1, p.2)))
       | _ => none) := by
  rw [parseItems.eq_def]

/-! ### Fuel adequacy -/

mutual

/-- Fuel sufficient for `parseVal` to parse the repr of `v`. -/
def FV : PyVal → Nat
  | PStr _ => 1
  | PInt _ => 1
  | PBool _ => 1
  | PNone => 1
  | PList [] => 1
  | PList (v :: vs) => 1 + FI v vs
termination_by v => sizeOf v
decreasing_by all_goals (simp_wf; try omega)

/-- Fuel sufficient for `parseItems` on the repr of a non-empty list. -/
def FI : PyVal → List PyVal → Nat
  | v, [] => 1 + FV v
  | v, w :: vs => 1 + max (FV v) (FI w vs)
termination_by v vs => sizeOf v + sizeOf vs
decreasing_by all_goals (simp_wf; try omega)

end

theorem FV_pos : ∀ v, 1 ≤ FV v := by
  intro v
  cases v with
  | PList l => cases l <;> simp [FV]
  | _ => simp [FV]

theorem FI_pos : ∀ v vs, 1 ≤ FI v vs := by
  intro v vs
  cases vs <;> simp [FI]

theorem reprV_len_pos : ∀ v, 1 ≤ (reprV v).length := by
  intro v
  cases v with
  | PStr s => simp [reprV]
  | PInt n =>
    simp only [reprV, intChars]
    split
    · simp
    · have h2 := List.length_pos.2 (natDigits_ne_nil (Int.toNat n))
      omega
  | PBool b => cases b <;> simp [reprV]
  | PNone => simp [reprV]
  | PList l => cases l <;> simp [reprV]

theorem fuel_bound : ∀ n : Nat,
    (∀ v, sizeOf v = n → FV v ≤ (reprV v).length) ∧
    (∀ v vs, sizeOf v + sizeOf vs = n → FI v vs ≤ (reprItems v vs).length + 1) := by
  intro n
  induction n using Nat.strong_induction_on with
  | _ n ih =>
    constructor
    · intro v hn
      cases v with
      | PStr s => exact le_trans (by simp [FV]) (reprV_len_pos _)
      | PInt m => exact le_trans (by simp [FV]) (reprV_len_pos _)
      | PBool b => exact le_trans (by simp [FV]) (reprV_len_pos _)
      | PNone => exact le_trans (by simp [FV]) (reprV_len_pos _)
      | PList l =>
        cases l with
        | nil => simp [FV, reprV]
        | cons v vs =>
          have hm : sizeOf v + sizeOf vs < n := by
            subst hn; simp; omega
          have hIH := (ih _ hm).2 v vs rfl
          simp only [FV, reprV, List.length_cons, List.length_append]
          simp at hIH ⊢
          omega
    · intro v vs hn
      cases vs with
      | nil =>
        have hm : sizeOf v < n := by subst hn; simp
        have hIH := (ih _ hm).1 v rfl
        simp only [FI, reprItems]
        omega
      | cons w vs' =>
        have hm1 : sizeOf v < n := by subst hn; simp
        have hm2 : sizeOf w + sizeOf vs' < n := by subst hn; simp; omega
        have h1 := (ih _ hm1).1 v rfl
        have h2 := (ih _ hm2).2 w vs' rfl
        have hrv := reprV_len_pos v
        simp only [FI, reprItems, List.length_append, List.length_cons]
        omega

theorem FV_le (v : PyVal) : FV v ≤ (reprV v).length :=
  (fuel_bound (sizeOf v)).1 v rfl

/-! ### Heads of printed representations -/

theorem reprV_head (v : PyVal) :
    ∃ c t, reprV v = c :: t ∧ isWsChar c = false ∧
      (c = ']') = False ∧ (c = ',') = False := by
  cases v with
  | PStr s =>
    rcases quoteFor_cases s.data with h | h <;>
      exact ⟨quoteFor s.data, escBody (quoteFor s.data) s.data ++ [quoteFor s.data],
        by simp [reprV], by simp [h, isWsChar], by simp [h], by simp [h]⟩
  | PInt n =>
    by_cases hn : n < 0
    · exact ⟨'-', natDigits (-n).toNat, by simp [reprV, intChars, hn], by decide,
        by simp, by simp⟩
    · obtain ⟨d, ds, hd, hlt⟩ := natDigits_head n.toNat
      obtain ⟨_, hws, _, hrb, hcm⟩ := digitChar_facts d hlt
      exact ⟨Char.ofNat (48 + d), ds, by simp [reprV, intChars, hn, hd], hws, hrb, hcm⟩
  | PBool b =>
    cases b
    · exact ⟨'F', ['a', 'l', 's', 'e'], by simp [reprV], by decide, by simp, by simp⟩
    · exact ⟨'T', ['r', 'u', 'e'], by simp [reprV], by decide, by simp, by simp⟩
  | PNone => exact ⟨'N', ['o', 'n', 'e'], by simp [reprV], by decide, by simp, by simp⟩
  | PList l =>
    cases l with
    | nil => exact ⟨'[', [']'], by simp [reprV], by decide, by simp, by simp⟩
    | cons v vs =>
      exact ⟨'[', reprItems v vs ++ [']'], by simp [reprV], by decide, by simp, by simp⟩

theorem reprItems_head (v : PyVal) (vs : List PyVal) :
    ∃ c t, reprItems v vs = c :: t ∧ isWsChar c = false ∧
      (c = ']') = False ∧ (c = ',') = False := by
  obtain ⟨c, t, hct, hws, hrb, hcm⟩ := reprV_head v
  cases vs with
  | nil => exact ⟨c, t, by simp [reprItems, hct], hws, hrb, hcm⟩
  | cons w vs' =>
    exact ⟨c, t ++ ',' :: ' ' :: reprItems w vs',
      by simp [reprItems, hct], hws, hrb, hcm⟩

/-! ### The round-trip theorem -/

theorem rt_main : ∀ fuel : Nat,
    (∀ v rest, FV v ≤ fuel → digitFree rest = true →
      parseVal fuel (reprV v ++ rest) = some (v, rest)) ∧
    (∀ v vs rest, FI v vs ≤ fuel →
      parseItems fuel (reprItems v vs ++ (']' :: rest)) = some (v :: vs, rest)) := by
  intro fuel
  induction fuel with
  | zero =>
    constructor
    · intro v rest hf _
      exact absurd hf (by have := FV_pos v; omega)
    · intro v vs rest hf
      exact absurd hf (by have := FI_pos v vs; omega)
  | succ f ih =>
    constructor
    · intro v rest hf hrest
      cases v with
      | PStr s =>
        have hrepr : reprV (PStr s) =
            quoteFor s.data :: (escBody (quoteFor s.data) s.data ++ [quoteFor s.data]) := by
          simp [reprV]
        rcases quoteFor_cases s.data with hq | hq <;>
          (rw [hrepr, hq, List.cons_append, List.append_assoc, parseVal_succ];
           simp [ws, isWsChar, strBody_rt (Or.inl rfl), strBody_rt (Or.inr rfl),
             String.mk])
      | PInt n =>
        by_cases hn : n < 0
        · have hrepr : reprV (PInt n) = '-' :: natDigits (-n).toNat := by
            simp [reprV, intChars, hn]
          obtain ⟨d, ds, hd, hlt⟩ := natDigits_head (-n).toNat
          obtain ⟨hdig, hws, htn, _, _⟩ := digitChar_facts d hlt
          have hfull := takeDigits_full (-n).toNat hrest
          rw [hd, List.cons_append, takeDigits_cons_digit hdig, htn] at hfull
          norm_num at hfull
          have htn2 : (((-n).toNat : Int)) = -n := Int.toNat_of_nonneg (by omega)
          rw [hrepr, hd, List.cons_append, List.cons_append, parseVal_succ,
            ws_cons_not (by decide : isWsChar '-' = false)]
          simp [hdig, htn, hfull, htn2]
        · have hrepr : reprV (PInt n) = natDigits n.toNat := by
            simp [reprV, intChars, hn]
          obtain ⟨d, ds, hd, hlt⟩ := natDigits_head n.toNat
          obtain ⟨hdig, hws, htn, _, _⟩ := digitChar_facts d hlt
          have hfull := takeDigits_full n.toNat hrest
          rw [hd, List.cons_append, takeDigits_cons_digit hdig, htn] at hfull
          norm_num at hfull
          have htn2 : ((n.toNat : Int)) = n := Int.toNat_of_nonneg (by omega)
          rw [hrepr, hd, List.cons_append, parseVal_succ, ws_cons_not hws]
          simp [hdig, htn, hfull, htn2]
      | PBool b =>
        cases b
        · rw [show reprV (PBool false) = ['F', 'a', 'l', 's', 'e'] from by
            simp [reprV], parseVal_succ]
          simp [ws, isWsChar]
        · rw [show reprV (PBool true) = ['T', 'r', 'u', 'e'] from by
            simp [reprV], parseVal_succ]
          simp [ws, isWsChar]
      | PNone =>
        rw [show reprV PNone = ['N', 'o', 'n', 'e'] from by simp [reprV], parseVal_succ]
        simp [ws, isWsChar]
      | PList l =>
        cases l with
        | nil =>
          rw [show reprV (PList []) = ['[', ']'] from by simp [reprV], parseVal_succ]
          simp [ws, isWsChar]
        | cons v vs =>
          have hfi : FI v vs ≤ f := by
            have hfv : FV (PList (v :: vs)) = 1 + FI v vs := by simp [FV]
            omega
          obtain ⟨c, t, hct, hcw, hcrb, _⟩ := reprItems_head v vs
          have hitems := ih.2 v vs rest hfi
          rw [hct, List.cons_append] at hitems
          rw [show reprV (PList (v :: vs)) = '[' :: (reprItems v vs ++ [']']) from by
            simp [reprV], List.cons_append, List.append_assoc, hct, parseVal_succ,
            ws_cons_not (by decide : isWsChar '[' = false)]
          simp [List.cons_append, ws_cons_not hcw, hcrb, hitems]
    · intro v vs rest hfi
      cases vs with
      | nil =>
        have hfv : FV v ≤ f := by simp [FI] at hfi; omega
        have hval := ih.1 v (']' :: rest) hfv (by rfl)
        rw [show reprItems v [] = reprV v from by simp [reprItems], parseItems_succ,
          hval]
        simp [ws, isWsChar]
      | cons w vs' =>
        have hfv : FV v ≤ f := by simp [FI] at hfi; omega
        have hfi' : FI w vs' ≤ f := by simp [FI] at hfi; omega
        have hval := ih.1 v (',' :: ' ' :: (reprItems w vs' ++ (']' :: rest))) hfv
          (by rfl)
        obtain ⟨c, t, hct, hcw, hcrb, _⟩ := reprItems_head w vs'
        have hitems := ih.2 w vs' rest hfi'
        rw [hct, List.cons_append] at hitems
        rw [show reprItems v (w :: vs') = reprV v ++ ',' :: ' ' :: reprItems w vs' from by
          simp [reprItems], List.append_assoc]
        rw [show (',' :: ' ' :: reprItems w vs') ++ (']' :: rest) =
          ',' :: ' ' :: (reprItems w vs' ++ (']' :: rest)) from by simp]
        rw [parseItems_succ, hval]
        rw [hct, List.cons_append]
        simp [List.cons_append, ws_cons_not (by decide : isWsChar ',' = false),
          ws_cons_skip (by decide : isWsChar ' ' = true), ws_cons_not hcw,
          hcrb, hitems]

/-- `ast.literal_eval` inverts `repr` on every modelled literal value. -/
theorem literalEval_pyRepr (v : PyVal) : literalEval (pyRepr v) = some v := by
  unfold literalEval pyRepr
  have hdata : (String.mk (reprV v)).data = reprV v := rfl
  rw [hdata]
  have hfv : FV v ≤ (reprV v).length + 1 := le_trans (FV_le v) (by omega)
  have h := (rt_main ((reprV v).length + 1)).1 v [] hfv rfl
  rw [List.append_nil] at h
  rw [h]
  rfl

/-! ## Structure of successful builder results -/

theorem clsOutFor_ok {r : Row} {wc : Nat} {c : String} {co : String × ClsOut}
    (h : clsOutFor r wc c = .ok co) :
    co.1 = c ∧
    co.2.pct = (if 0 < wc then
      ((normalize (rowGet r (companionName c) (VList []))).length : ℚ) / (wc : ℚ) * 100
      else 0) ∧
    coerceFloat (rowGet r c (VNum 0)) = .ok co.2.value := by
  cases hcf : coerceFloat (rowGet r c (VNum 0)) with
  | error e => simp [clsOutFor, hcf, Bind.bind, Except.bind] at h
  | ok v =>
    simp [clsOutFor, hcf, Bind.bind, Except.bind] at h
    subst h
    exact ⟨rfl, rfl, rfl⟩

theorem clsOutFor_isOk (r : Row) (wc : Nat) (c : String) :
    (clsOutFor r wc c).isOk = (coerceFloat (rowGet r c (VNum 0))).isOk := by
  cases hcf : coerceFloat (rowGet r c (VNum 0)) <;>
    simp [clsOutFor, hcf, Bind.bind, Except.bind, Except.isOk, Except.toBool]

theorem buildSRecord_ok {d : Dataset} {cfg : Config} {idx : Nat} {r : Row}
    {rec : SRecord} (h : buildSRecord d cfg idx r = .ok rec) :
    rec.row_id = idx + 1 ∧
    rec.id = rowGet r cfg.idCol VNaN ∧
    rec.word_count = wordCount (pyStr (rowGet r cfg.textCol VNaN)) ∧
    rec.number_likes = (if "number_likes" ∈ d.cols
      then some (rowGet r "number_likes" (VNum 0)) else none) ∧
    mapME (clsOutFor r rec.word_count) cfg.clsCols = .ok rec.cls := by
  cases hm : mapME (clsOutFor r (wordCount (pyStr (rowGet r cfg.textCol VNaN))))
      cfg.clsCols with
  | error e => simp [buildSRecord, hm, Bind.bind, Except.bind] at h
  | ok cls =>
    simp [buildSRecord, hm, Bind.bind, Except.bind] at h
    subst h
    exact ⟨rfl, rfl, rfl, rfl, hm⟩

theorem buildSRecord_isOk {d : Dataset} {cfg : Config} {idx : Nat} {r : Row}
    (h : ∀ c ∈ cfg.clsCols, (coerceFloat (rowGet r c (VNum 0))).isOk = true) :
    (buildSRecord d cfg idx r).isOk = true := by
  have hm := mapME_ok_of_forall
    (f := clsOutFor r (wordCount (pyStr (rowGet r cfg.textCol VNaN))))
    (l := cfg.clsCols)
    (fun c hc => by rw [clsOutFor_isOk]; exact h c hc)
  cases hmm : mapME (clsOutFor r (wordCount (pyStr (rowGet r cfg.textCol VNaN))))
      cfg.clsCols with
  | error e => rw [hmm] at hm; simp [Except.isOk, Except.toBool] at hm
  | ok cls =>
    simp [buildSRecord, hmm, Bind.bind, Except.bind, Except.isOk, Except.toBool]

theorem idClsFor_ok {d : Dataset} {g : List Row} {c : String}
    {ic : String × IdCls} (h : idClsFor d g c = .ok ic) :
    ∃ values, mapME (fun r => coerceFloat (rowGet r c VNaN)) g = .ok values ∧
      ic.1 = c ∧
      ic.2.pct = ((values.filter gt0).length : ℚ) / (values.length : ℚ) * 100 ∧
      ic.2.score = pyRound 3 (((values.filter gt0).length : ℚ) / (values.length : ℚ)) ∧
      ic.2.word_count = (if companionName c ∈ d.cols then
        (((g.zip values).filter (fun p => gt0 p.2)).map
          (fun p => (normalize (rowGet p.1 (companionName c) VNaN)).length)).sum
        else 0) := by
  cases hm : mapME (fun r => coerceFloat (rowGet r c VNaN)) g with
  | error e => simp [idClsFor, hm, Bind.bind, Except.bind] at h
  | ok values =>
    simp [idClsFor, hm, Bind.bind, Except.bind] at h
    subst h
    exact ⟨values, rfl, rfl, rfl, rfl, rfl⟩

theorem idClsFor_isOk {d : Dataset} {g : List Row} {c : String}
    (h : ∀ r ∈ g, (coerceFloat (rowGet r c VNaN)).isOk = true) :
    (idClsFor d g c).isOk = true := by
  have hm := mapME_ok_of_forall (f := fun r => coerceFloat (rowGet r c VNaN))
    (l := g) h
  cases hmm : mapME (fun r => coerceFloat (rowGet r c VNaN)) g with
  | error e => rw [hmm] at hm; simp [Except.isOk, Except.toBool] at hm
  | ok values =>
    simp [idClsFor, hmm, Bind.bind, Except.bind, Except.isOk, Except.toBool]

theorem buildARecord_ok {d : Dataset} {cfg : Config} {uid : Value} {g : List Row}
    {rec : ARecord} (h : buildARecord d cfg uid g = .ok rec) :
    rec.id = uid ∧
    rec.total_word_count =
      ((g.map (fun r => pyStr (rowGet r cfg.textCol VNaN))).map wordCount).sum ∧
    mapME (idClsFor d g) cfg.clsCols = .ok rec.cls := by
  cases hm : mapME (idClsFor d g) cfg.clsCols with
  | error e => simp [buildARecord, hm, Bind.bind, Except.bind] at h
  | ok cls =>
    simp [buildARecord, hm, Bind.bind, Except.bind] at h
    subst h
    refine ⟨rfl, ?_, rfl⟩
    simp

theorem buildARecord_isOk {d : Dataset} {cfg : Config} {uid : Value} {g : List Row}
    (h : ∀ c ∈ cfg.clsCols, ∀ r ∈ g, (coerceFloat (rowGet r c VNaN)).isOk = true) :
    (buildARecord d cfg uid g).isOk = true := by
  have hm := mapME_ok_of_forall (f := idClsFor d g) (l := cfg.clsCols)
    (fun c hc => idClsFor_isOk (h c hc))
  cases hmm : mapME (idClsFor d g) cfg.clsCols with
  | error e => rw [hmm] at hm; simp [Except.isOk, Except.toBool] at hm
  | ok cls =>
    simp [buildARecord, hmm, Bind.bind, Except.bind, Except.isOk, Except.toBool]

theorem groupby_mem {d : Dataset} {c : String} {k : Value} {g : List Row}
    (h : (k, g) ∈ groupby d c) :
    g = d.rows.filter (fun r => decide (rowGet r c VNaN = k)) ∧ k ∈ keysOf d c := by
  simp [groupby] at h
  obtain ⟨k', hk', hkk, hgg⟩ := h
  subst hkk
  exact ⟨hgg.symm, hk'⟩

/-- The first components of `groupby` are exactly the sorted keys. -/
theorem groupby_keys (d : Dataset) (c : String) :
    (groupby d c).map (fun p => p.1) = keysOf d c := by
  rw [groupby, List.map_map]
  exact List.map_id _

/-! ## Keys of the summary grouping -/

theorem recKeys_perm (pos : List SRecord) :
    List.Perm (recKeys pos)
      (((pos.map (fun rec => rec.id)).filter (fun v => !isMissing v)).dedup) :=
  List.perm_insertionSort _ _

theorem recKeys_nodup (pos : List SRecord) : (recKeys pos).Nodup :=
  ((recKeys_perm pos).symm).nodup (List.nodup_dedup _)

theorem recKeys_mem (pos : List SRecord) (k : Value) :
    k ∈ recKeys pos ↔
      (isMissing k = false ∧ k ∈ pos.map (fun rec => rec.id)) := by
  rw [(recKeys_perm pos).mem_iff, List.mem_dedup, List.mem_filter]
  constructor
  · rintro ⟨hmem, hnm⟩
    exact ⟨by simpa using hnm, hmem⟩
  · rintro ⟨hnm, hmem⟩
    exact ⟨hmem, by simp [hnm]⟩

/-! ## Concrete datasets used by the claims -/

/-- A row element is a member of a list exactly when `enum` pairs it. -/
theorem mem_of_mem_enum {α : Type} {l : List α} {p : Nat × α}
    (h : p ∈ l.enum) : p.2 ∈ l := by
  rw [← List.enum_map_snd l]
  exact List.mem_map_of_mem _ h

/-- The scenario dataset of spec §8: ids `[A, A, B]`, three statements,
classifier `has_x` and companion data under the column name
`found_has_x_terms`. -/
def rowScen1 : Row :=
  [("post_id", VStr "A"), ("statement", VStr "great product"),
   ("has_x", VNum 1), ("found_has_x_terms", VStr "[\"great\"]")]

def rowScen2 : Row :=
  [("post_id", VStr "A"), ("statement", VStr "i love it"),
   ("has_x", VNum 0), ("found_has_x_terms", VStr "[]")]

def rowScen3 : Row :=
  [("post_id", VStr "B"), ("statement", VStr "meh"),
   ("has_x", VNum 1), ("found_has_x_terms", VStr "[\"meh\"]")]

def dfScen : Dataset :=
  ⟨["post_id", "statement", "has_x", "found_has_x_terms"],
   [rowScen1, rowScen2, rowScen3]⟩

def cfgScen : Config := ⟨"post_id", "statement", ["has_x"]⟩

/-- The statement-level output the code computes on the scenario. -/
def recsScen : List SRecord :=
  [⟨1, VStr "A", "great product", 2, none, none, [("has_x", ⟨some 1, 0⟩)]⟩,
   ⟨2, VStr "A", "i love it", 3, none, none, [("has_x", ⟨some 0, 0⟩)]⟩,
   ⟨3, VStr "B", "meh", 1, none, none, [("has_x", ⟨some 1, 0⟩)]⟩]

/-- The ID-level output the code computes on the scenario. -/
def arecsScen : List ARecord :=
  [⟨VStr "A", 5, none, none, [("has_x", ⟨0, 50, 1/2, none, none⟩)]⟩,
   ⟨VStr "B", 1, none, none, [("has_x", ⟨0, 100, 1, none, none⟩)]⟩]

/-- Two rows whose found-terms outnumber / undershoot the words: row 1 has
1 word and 2 found terms, row 2 has 1 word and 0 found terms. -/
def dfPct : Dataset :=
  ⟨["post_id", "statement", "has_x", "found_x_terms"],
   [[("post_id", VStr "A"), ("statement", VStr "hi"),
     ("has_x", VNum 1), ("found_x_terms", VStr "[\"a\", \"b\"]")],
    [("post_id", VStr "A"), ("statement", VStr "yo"),
     ("has_x", VNum 1), ("found_x_terms", VStr "[]")]]⟩

def recsPct : List SRecord :=
  [⟨1, VStr "A", "hi", 1, none, none, [("has_x", ⟨some 1, 200⟩)]⟩,
   ⟨2, VStr "A", "yo", 1, none, none, [("has_x", ⟨some 1, 0⟩)]⟩]

/-- A well-formed row followed by a row whose classifier cell is the
non-numeric string "abc". -/
def dfBadFloat : Dataset :=
  ⟨["post_id", "statement", "has_x"],
   [[("post_id", VStr "A"), ("statement", VStr "fine row"), ("has_x", VNum 1)],
    [("post_id", VStr "B"), ("statement", VStr "bad row"), ("has_x", VStr "abc")]]⟩

/-- A dataset full of benign per-row anomalies: an empty statement, a
malformed found-terms string, NaN cells, a numeric found-terms cell and a
missing found-terms cell — but all classifier cells coercible. -/
def dfMessy : Dataset :=
  ⟨["post_id", "statement", "has_x", "found_x_terms"],
   [[("post_id", VStr "A"), ("statement", VStr ""), ("has_x", VNum 1),
     ("found_x_terms", VStr "not a list")],
    [("post_id", VNaN), ("statement", VNaN), ("has_x", VNaN),
     ("found_x_terms", VNum 7)],
    [("post_id", VStr "B"), ("statement", VStr "hello world"),
     ("has_x", VNum 0)]]⟩

/-- A single positive row whose id is missing and whose engagement is 5
likes / 2 comments. -/
def dfNanId : Dataset :=
  ⟨["post_id", "statement", "has_x", "number_likes", "number_comments"],
   [[("post_id", VNaN), ("statement", VStr "hi"), ("has_x", VNum 1),
     ("number_likes", VNum 5), ("number_comments", VNum 2)]]⟩

def recsNanId : List SRecord :=
  [⟨1, VNaN, "hi", 1, some (VNum 5), some (VNum 2), [("has_x", ⟨some 1, 0⟩)]⟩]

/-- The scenario rows in input order B then A (for the ordering claim). -/
def dfBA : Dataset :=
  ⟨["post_id", "statement", "has_x", "found_has_x_terms"], [rowScen3, rowScen1]⟩

def arecsBA : List ARecord :=
  [⟨VStr "A", 2, none, none, [("has_x", ⟨0, 100, 1, none, none⟩)]⟩,
   ⟨VStr "B", 1, none, none, [("has_x", ⟨0, 100, 1, none, none⟩)]⟩]

/-! ## The claims -/

/-- The found-terms cell parses to something other than a list (or fails
to parse at all). -/
def nonListLit (s : String) : Bool :=
  match literalEval s with
  | some (PList _) => false
  | _ => true

/-- C3: for every found-terms cell that is a string which fails to parse
as a literal or parses to a non-list, normalization returns the empty
list.  `normalize` is a total function — the recovery is local to the
cell, mirroring the per-cell try/except of source lines 60-64 and
100-104, so no exception propagates and no other row is touched. -/
theorem c3_parse_failure_recovered :
    ∀ s : String, nonListLit s = true → normalize (VStr s) = [] := by
  intro s h
  cases hl : literalEval s with
  | none => simp [normalize, hl]
  | some v =>
    cases v with
    | PList l => simp [nonListLit, hl] at h
    | PStr t => simp [normalize, hl]
    | PInt n => simp [normalize, hl]
    | PBool b => simp [normalize, hl]
    | PNone => simp [normalize, hl]

/-- C3 witness: the malformed string "not a list" normalizes to the empty
list. -/
theorem c3_witness :
    nonListLit "not a list" = true ∧ normalize (VStr "not a list") = [] :=
  ⟨by decide, c3_parse_failure_recovered "not a list" (by decide)⟩

/-- The element is a string literal. -/
def isStrV : PyVal → Bool
  | PStr _ => true
  | _ => false

/-- C7 counterexample: normalizing the string-encoded list "[1]" yields
the list `[1]` whose element is an integer, not a string — the cell can
normalize to a list that is not a list of strings. -/
theorem c7_counterexample :
    normalize (VStr "[1]") = [PInt 1] ∧
    (normalize (VStr "[1]")).all isStrV = false := by
  decide

/-- C7 amended: for every raw cell value the normalization result is
always a list (possibly empty) — never null, never a non-list — namely
the cell itself when it is a genuine list, the parsed elements when it is
a string encoding a list, and the empty list otherwise; the elements are
whatever literals the cell contained, not necessarily strings. -/
theorem c7_amended :
    ∀ v : Value, normalize v = [] ∨
      (∃ l, v = VList l ∧ normalize v = l) ∨
      (∃ s l, v = VStr s ∧ literalEval s = some (PList l) ∧ normalize v = l) := by
  intro v
  cases v with
  | VStr s =>
    cases hl : literalEval s with
    | none => left; simp [normalize, hl]
    | some pv =>
      cases pv with
      | PList l => right; right; exact ⟨s, l, rfl, hl, by simp [normalize, hl]⟩
      | PStr t => left; simp [normalize, hl]
      | PInt n => left; simp [normalize, hl]
      | PBool b => left; simp [normalize, hl]
      | PNone => left; simp [normalize, hl]
  | VList l => right; left; exact ⟨l, rfl, rfl⟩
  | VNum q => left; rfl
  | VNaN => left; rfl
  | VNone => left; rfl

/-- C8: both companion-column derivation variants are available as a
configuration choice (`NameVariant`): the `verbatim` variant uses the
classifier column name unmodified, forming `found_{c}_terms`, while the
`stripHas` variant — the one src/streamlit_app.py hardcodes — strips a
literal `has_` before wrapping. -/
theorem c8_both_variants :
    ∀ c b : String,
      companionFor .verbatim c = "found_" ++ c ++ "_terms" ∧
      companionFor .stripHas c = companionName c ∧
      companionFor .stripHas ("has_" ++ b) = "found_" ++ b ++ "_terms" := by
  intro c b
  refine ⟨rfl, rfl, ?_⟩
  cases b with
  | mk bd =>
    show companionName ("has_" ++ String.mk bd) = "found_" ++ String.mk bd ++ "_terms"
    rw [show ("has_" ++ String.mk bd) = String.mk ('h' :: 'a' :: 's' :: '_' :: bd) from rfl]
    unfold companionName removePrefixStr
    rw [show "has_".data = ['h', 'a', 's', '_'] from rfl]
    simp [List.isPrefixOf]

/-- C9: found-terms normalization is idempotent — a value that is already
a normalized list re-normalizes to itself, and the literal printed
representation (`repr`) of any list parses back to a list of equal
content. -/
theorem c9_normalize_roundtrip :
    (∀ l : List PyVal, normalize (VList l) = l) ∧
    (∀ l : List PyVal, normalize (VStr (pyRepr (PList l))) = l) := by
  refine ⟨fun l => rfl, fun l => ?_⟩
  simp [normalize, literalEval_pyRepr]

/-- C1 counterexample: on the §8 scenario dataset the code does not
produce the claimed numbers.  The companion column looked up for
classifier `has_x` is `found_x_terms` (the `has_` prefix is stripped,
lines 55-56), which is absent, so every statement-level `has_x_percentage`
is 0 — not 50.0 / 100.0 as claimed — and every ID-level `has_x_word_count`
is 0, not 1.  Also "i love it" has 3 whitespace tokens, so identity A's
`total_word_count` is 5, not 4. -/
theorem c1_counterexample :
    (statementLevel cfgScen dfScen).map
        (fun recs => recs.map (fun rec => List.lookup "has_x" rec.cls)) =
      .ok [some ⟨some 1, 0⟩, some ⟨some 0, 0⟩, some ⟨some 1, 0⟩] ∧
    (idLevel cfgScen dfScen).map
        (fun recs => recs.map (fun rec => rec.total_word_count)) = .ok [5, 1] ∧
    ((0 : ℚ) = 50) = False ∧ ((5 : Nat) = 4) = False := by
  refine ⟨by with_unfolding_all rfl, by with_unfolding_all rfl, by decide, by decide⟩

/-- C1 amended: on the §8 scenario the statement-level output has, for
row 1, `word_count = 2`, `has_x = 1`, `has_x_percentage = 0` and for
row 3 `word_count = 1`, `has_x = 1`, `has_x_percentage = 0` (the
companion column actually consulted, `found_x_terms`, is absent); the
ID-level output has for A `total_word_count = 5`, `has_x_word_count = 0`,
`has_x_percentage = 50.0`, `has_x_continuous_score = 0.5` and for B
`total_word_count = 1`, `has_x_word_count = 0`,
`has_x_percentage = 100.0`, `has_x_continuous_score = 1.0`. -/
theorem c1_amended :
    statementLevel cfgScen dfScen = .ok recsScen ∧
    idLevel cfgScen dfScen = .ok arecsScen := by
  refine ⟨by with_unfolding_all rfl, by with_unfolding_all rfl⟩

/-- C2 counterexample: on `dfPct` the first record's `has_x_percentage`
is 200, outside [0, 100] (two found terms against one word), and the
second record's percentage is 0 although its `word_count` is 1 — so the
percentage is neither bounded by 100 nor zero *exactly* when the word
count is zero. -/
theorem c2_counterexample :
    statementLevel cfgScen dfPct = .ok recsPct ∧
    (recsPct.map (fun rec => (rec.word_count, List.lookup "has_x" rec.cls))) =
      [(1, some ⟨some 1, 200⟩), (1, some ⟨some 1, 0⟩)] ∧
    ((200 : ℚ) ≤ 100) = False := by
  refine ⟨by with_unfolding_all rfl, by decide, by decide⟩

/-- C2 amended: for every row and classifier column, the statement-level
percentage of the i-th output record is nonnegative, equals 0 whenever
that record's `word_count` is 0, and for a nonzero `word_count` equals
`100 × len(normalized found-terms of the i-th input row) / word_count`
— a value that may exceed 100 and may be 0 with a nonzero word count. -/
theorem c2_amended :
    ∀ (cfg : Config) (d : Dataset) (recs : List SRecord),
      statementLevel cfg d = .ok recs →
      recs.length = d.rows.length ∧
      ∀ i, ∀ hi : i < recs.length, ∀ hrow : i < d.rows.length,
        ∀ co ∈ (recs.get ⟨i, hi⟩).cls,
          0 ≤ co.2.pct ∧
          ((recs.get ⟨i, hi⟩).word_count = 0 → co.2.pct = 0) ∧
          ((recs.get ⟨i, hi⟩).word_count ≠ 0 →
            co.2.pct = 100 *
              ((normalize (rowGet (d.rows.get ⟨i, hrow⟩)
                (companionName co.1) (VList []))).length : ℚ) /
              ((recs.get ⟨i, hi⟩).word_count : ℚ)) := by
  intro cfg d recs hok
  obtain ⟨hlen, hget⟩ := mapME_ok_get hok
  have hlen' : recs.length = d.rows.length := by
    rw [hlen, List.enum_length]
  refine ⟨hlen', ?_⟩
  intro i hi hrow co hco
  have hienum : i < d.rows.enum.length := by
    rw [List.enum_length]
    exact hrow
  have hbuild := hget i hi hienum
  have henum : d.rows.enum.get ⟨i, hienum⟩ = (i, d.rows.get ⟨i, hrow⟩) := by
    simp [List.get_eq_getElem, List.getElem_enum]
  rw [henum] at hbuild
  obtain ⟨_, _, hwc, _, hcls⟩ := buildSRecord_ok hbuild
  obtain ⟨c, hc, hco_ok⟩ := mapME_ok_mem hcls co hco
  obtain ⟨hc1, hpct, _⟩ := clsOutFor_ok hco_ok
  refine ⟨?_, ?_, ?_⟩
  · rw [hpct]
    split
    · positivity
    · exact le_refl 0
  · intro h0
    rw [hpct, if_neg (by omega)]
  · intro hne
    rw [hpct, hc1, if_pos (Nat.pos_of_ne_zero hne)]
    ring

/-- C2 witness: the amended statement evaluated on the concrete `dfPct`
dataset. -/
theorem c2_witness :
    statementLevel cfgScen dfPct = .ok recsPct ∧
    (recsPct.length = dfPct.rows.length ∧
     ∀ i, ∀ hi : i < recsPct.length, ∀ hrow : i < dfPct.rows.length,
       ∀ co ∈ (recsPct.get ⟨i, hi⟩).cls,
         0 ≤ co.2.pct ∧
         ((recsPct.get ⟨i, hi⟩).word_count = 0 → co.2.pct = 0) ∧
         ((recsPct.get ⟨i, hi⟩).word_count ≠ 0 →
           co.2.pct = 100 *
             ((normalize (rowGet (dfPct.rows.get ⟨i, hrow⟩)
               (companionName co.1) (VList []))).length : ℚ) /
             ((recsPct.get ⟨i, hi⟩).word_count : ℚ))) :=
  ⟨by with_unfolding_all rfl,
   c2_amended cfgScen dfPct recsPct (by with_unfolding_all rfl)⟩

/-- C4 counterexample: a single non-numeric classifier cell in row 2 of
a 2-row dataset makes the whole statement-level transform raise (the
`float` call at line 52 is not guarded locally; the exception reaches the
top-level handler of lines 169-170), so the run aborts and produces no
output for the well-formed remaining row. -/
theorem c4_counterexample :
    statementLevel cfgScen dfBadFloat =
      .error "could not convert string to float: abc" ∧
    (idLevel cfgScen dfBadFloat).isOk = false ∧
    dfBadFloat.rows.length = 2 := by
  refine ⟨by with_unfolding_all rfl, by with_unfolding_all rfl, by decide⟩

/-- C4 amended: the per-row anomalies that are recovered locally are the
found-terms anomalies and zero word counts — whenever every classifier
cell of every row coerces with `float`, both transforms succeed, whatever
the text and found-terms cells contain; but a classifier cell that
`float` rejects aborts the whole run (it is not recovered locally). -/
theorem c4_amended (cfg : Config) (d : Dataset) :
    ((∀ r ∈ d.rows, ∀ c ∈ cfg.clsCols,
        (coerceFloat (rowGet r c (VNum 0))).isOk = true) →
      (statementLevel cfg d).isOk = true) ∧
    ((∀ r ∈ d.rows, ∀ c ∈ cfg.clsCols,
        (coerceFloat (rowGet r c VNaN)).isOk = true) →
      (idLevel cfg d).isOk = true) := by
  constructor
  · intro h
    apply mapME_ok_of_forall
    intro p hp
    exact buildSRecord_isOk (fun c hc => h p.2 (mem_of_mem_enum hp) c hc)
  · intro h
    apply mapME_ok_of_forall
    intro p hp
    apply buildARecord_isOk
    intro c hc r hr
    obtain ⟨hg, _⟩ := groupby_mem (show (p.1, p.2) ∈ groupby d cfg.idCol from hp)
    have hr' : r ∈ d.rows := by
      rw [hg] at hr
      exact (List.mem_filter.1 hr).1
    exact h r hr' c hc

/-- C4 witness: on a dataset full of benign anomalies (empty statement,
malformed found-terms string, NaN cells, numeric found-terms cell,
missing found-terms cell) — but with coercible classifier cells — both
transforms succeed. -/
theorem c4_witness :
    (statementLevel cfgScen dfMessy).isOk = true ∧
    (idLevel cfgScen dfMessy).isOk = true :=
  ⟨(c4_amended cfgScen dfMessy).1 (by decide),
   (c4_amended cfgScen dfMessy).2 (by decide)⟩

/-- C5 counterexample: a 1-row dataset whose identity cell is missing
(NaN).  `groupby` drops the missing key, so no group is emitted and the
group sizes sum to 0, not to the total row count 1. -/
theorem c5_counterexample :
    dfNanId.rows.length = 1 ∧
    ((groupby dfNanId "post_id").map (fun p => p.2.length)).sum = 0 ∧
    ((0 : Nat) = 1) = False := by
  refine ⟨by decide, by decide, by decide⟩

/-- C5 amended: the group sizes of the identity-level grouping sum to the
number of rows whose identity cell is non-missing (missing-id rows are
dropped by `groupby`), and every emitted percentage — 100 × the group's
positive ratio — lies in [0, 100]. -/
theorem c5_amended :
    ∀ (cfg : Config) (d : Dataset) (recs : List ARecord),
      idLevel cfg d = .ok recs →
      ((groupby d cfg.idCol).map (fun p => p.2.length)).sum =
        (d.rows.filter (fun r => !isMissing (rowGet r cfg.idCol VNaN))).length ∧
      ∀ rec ∈ recs, ∀ ic ∈ rec.cls, 0 ≤ ic.2.pct ∧ ic.2.pct ≤ 100 := by
  intro cfg d recs hok
  refine ⟨groupby_sizes_sum d cfg.idCol, ?_⟩
  intro rec hrec ic hic
  obtain ⟨p, hp, hbuild⟩ := mapME_ok_mem hok rec hrec
  obtain ⟨_, _, hcls⟩ := buildARecord_ok hbuild
  obtain ⟨c, hc, hic_ok⟩ := mapME_ok_mem hcls ic hic
  obtain ⟨values, _, _, hpct, _, _⟩ := idClsFor_ok hic_ok
  rw [hpct]
  have hmn : (values.filter gt0).length ≤ values.length :=
    List.length_filter_le _ _
  by_cases hn : values.length = 0
  · have hm : (values.filter gt0).length = 0 := by omega
    simp [hm, hn]
  · have hn' : (0 : ℚ) < (values.length : ℚ) := by
      exact_mod_cast Nat.pos_of_ne_zero hn
    have h1 : ((values.filter gt0).length : ℚ) / (values.length : ℚ) ≤ 1 := by
      rw [div_le_one hn']
      exact_mod_cast hmn
    have h0 : (0 : ℚ) ≤ ((values.filter gt0).length : ℚ) / (values.length : ℚ) := by
      positivity
    constructor
    · positivity
    · nlinarith

/-- C5 witness: the amended statement evaluated on the §8 scenario
dataset. -/
theorem c5_witness :
    idLevel cfgScen dfScen = .ok arecsScen ∧
    (((groupby dfScen cfgScen.idCol).map (fun p => p.2.length)).sum =
      (dfScen.rows.filter
        (fun r => !isMissing (rowGet r cfgScen.idCol VNaN))).length ∧
     ∀ rec ∈ arecsScen, ∀ ic ∈ rec.cls, 0 ≤ ic.2.pct ∧ ic.2.pct ≤ 100) :=
  ⟨by with_unfolding_all rfl,
   c5_amended cfgScen dfScen arecsScen (by with_unfolding_all rfl)⟩

/-- C6 counterexample: `dfNanId` has exactly one identity with a positive
statement — its id cell is missing (NaN) and its likes value is 5 — yet
`pos_rows.groupby("id")` drops the missing key, so the summary counts 0
unique posts and a `total_likes` of 0: that identity contributes its
likes zero times, not exactly once. -/
theorem c6_counterexample :
    statementLevel cfgScen dfNanId = .ok recsNanId ∧
    (recsNanId.filter (recPositive "has_x")).map likesNum = [some 5] ∧
    tacticSummaryFor recsNanId "has_x" = ⟨"has_x", 1, 0, 0, 0, 0, 0⟩ ∧
    ((0 : ℤ) = 5) = False := by
  refine ⟨by with_unfolding_all rfl, by with_unfolding_all rfl,
    by with_unfolding_all rfl, by decide⟩

/-- C6 amended: in the Tactic Impact Summary, for every classifier column
the engagement totals are sums over the distinct non-missing ids of the
positive Statement Records — a duplicate-free key list containing exactly
the non-missing ids among the positive records — with each such identity
contributing exactly once: its first non-null likes (resp. comments)
value among its positive records, in record order.  Identities whose id
is missing are counted in `positive_statements` but contribute no
engagement. -/
theorem c6_amended :
    ∀ (recs : List SRecord) (c : String),
      (recKeys (recs.filter (recPositive c))).Nodup ∧
      (∀ v, v ∈ recKeys (recs.filter (recPositive c)) ↔
        (isMissing v = false ∧
          v ∈ (recs.filter (recPositive c)).map (fun rec => rec.id))) ∧
      (tacticSummaryFor recs c).positive_statements =
        (recs.filter (recPositive c)).length ∧
      (tacticSummaryFor recs c).unique_posts =
        (recKeys (recs.filter (recPositive c))).length ∧
      (tacticSummaryFor recs c).total_likes = pyTrunc
        (((recKeys (recs.filter (recPositive c))).filterMap
          (firstNumOf likesNum (recs.filter (recPositive c)))).sum) ∧
      (tacticSummaryFor recs c).total_comments = pyTrunc
        (((recKeys (recs.filter (recPositive c))).filterMap
          (firstNumOf commentsNum (recs.filter (recPositive c)))).sum) := by
  intro recs c
  exact ⟨recKeys_nodup _, fun v => recKeys_mem _ v, rfl, rfl, rfl, rfl⟩

/-- C10: in ID-level mode the emitted record ids are exactly the `groupby`
keys: a duplicate-free list, sorted strictly ascending in the key order,
containing exactly the distinct non-missing identity values of the input
— i.e. one record per distinct non-missing identity, in ascending key
order rather than first-occurrence order. -/
theorem c10_sorted_unique :
    ∀ (cfg : Config) (d : Dataset) (recs : List ARecord),
      idLevel cfg d = .ok recs →
      recs.map (fun rec => rec.id) = keysOf d cfg.idCol ∧
      (recs.map (fun rec => rec.id)).Nodup ∧
      List.Pairwise (fun a b => keyLE a b = true ∧ a ≠ b)
        (recs.map (fun rec => rec.id)) ∧
      (∀ v, v ∈ recs.map (fun rec => rec.id) ↔
        (isMissing v = false ∧ ∃ r ∈ d.rows, rowGet r cfg.idCol VNaN = v)) := by
  intro cfg d recs hok
  have hids : recs.map (fun rec => rec.id) = keysOf d cfg.idCol := by
    rw [mapME_ok_map hok (fun p rec hb => (buildARecord_ok hb).1), groupby_keys]
  refine ⟨hids, ?_, ?_, ?_⟩
  · rw [hids]
    exact keysOf_nodup d cfg.idCol
  · rw [hids]
    exact (keysOf_sorted d cfg.idCol).and (keysOf_nodup d cfg.idCol)
  · intro v
    rw [hids]
    exact keysOf_mem d cfg.idCol v

/-- C10 witness: on `dfBA`, whose input order is identity B before
identity A, the ID-level output lists A before B — ascending key order,
not first-occurrence order — with one record per distinct identity. -/
theorem c10_witness :
    idLevel cfgScen dfBA = .ok arecsBA ∧
    (arecsBA.map (fun rec => rec.id) = keysOf dfBA cfgScen.idCol ∧
     (arecsBA.map (fun rec => rec.id)).Nodup ∧
     List.Pairwise (fun a b => keyLE a b = true ∧ a ≠ b)
       (arecsBA.map (fun rec => rec.id)) ∧
     (∀ v, v ∈ arecsBA.map (fun rec => rec.id) ↔
       (isMissing v = false ∧ ∃ r ∈ dfBA.rows, rowGet r cfgScen.idCol VNaN = v))) :=
  ⟨by with_unfolding_all rfl,
   c10_sorted_unique cfgScen dfBA arecsBA (by with_unfolding_all rfl)⟩

end WordMetrics
